import Mathlib

/-!
Verification of the BR/EDR interrogation procedure of the bt-host GAP layer
(`BrEdrInterrogator`). The implementation itself is not shipped in this tree
(only its unit tests, `bredr_interrogator_unittest.cc`, are), so the session
and procedure logic below is modelled from the specification: procedure
selection against cached peer state, a reference-count join with a
first-error-wins status fold, and the conditional extended-features cascade.
-/

namespace BrEdrInterrogation

/-- A failure reason: a protocol/transport status code carried by the
command-status or completion event, or a malformed (unparsable) packet. -/
inductive Reason where
  | hciStatus (code : Nat)
  | malformedPacket
deriving DecidableEq, Repr

/-- Result of one procedure or of the whole interrogation: ok or an error
carrying the failing reason. -/
inductive Status where
  | ok
  | error (r : Reason)
deriving DecidableEq, Repr

/-- Whether a status is ok. -/
def statusIsOk : Status → Bool
  | .ok => true
  | .error _ => false

/-- First-error-wins fold of the aggregate status: a later status is recorded
only while the aggregate is still ok; a later error never overrides an
already-recorded error. -/
def statusFold : Status → Status → Status
  | .ok, s => s
  | .error r, _ => .error r

/-- Modelled from the spec: the peer's cached version triple
{manufacturer, lmp_version, lmp_subversion} (the `Peer` class holding it is
not in this tree). -/
structure VersionInfo where
  manufacturer : Nat
  lmp_version : Nat
  lmp_subversion : Nat
deriving DecidableEq, Repr

/-- Modelled from the spec: the page-indexed feature bitset structure of the
peer record (pages 0..2; each page a 64-bit mask held as a `Nat`), with
`last_page_number` recording the highest page the peer reports supporting. -/
structure Features where
  page0 : Option Nat
  page1 : Option Nat
  page2 : Option Nat
  last_page_number : Nat
deriving DecidableEq, Repr

/-- `HasPage n`: whether feature page `n` has been populated. -/
def Features.has_page (f : Features) : Nat → Bool
  | 0 => f.page0.isSome
  | 1 => f.page1.isSome
  | 2 => f.page2.isSome
  | _ => false

/-- `HasBit page bit`: whether the given bit of a populated page is set
(false when the page is not populated). -/
def Features.has_bit (f : Features) (page bit : Nat) : Bool :=
  match page with
  | 0 => match f.page0 with | some b => b.testBit bit | none => false
  | 1 => match f.page1 with | some b => b.testBit bit | none => false
  | 2 => match f.page2 with | some b => b.testBit bit | none => false
  | _ => false

/-- Store a feature page's bitset (pages beyond 2 are not representable and
are ignored; the protocol defines no page beyond 2). -/
def Features.setPage (f : Features) (n bits : Nat) : Features :=
  match n with
  | 0 => { f with page0 := some bits }
  | 1 => { f with page1 := some bits }
  | 2 => { f with page2 := some bits }
  | _ => f

/-- Update `last_page_number` if the reported page number exceeds the
currently recorded one. -/
def Features.updateLastPage (f : Features) (m : Nat) : Features :=
  if f.last_page_number < m then { f with last_page_number := m } else f

/-- The LMP extended-features capability bit of the base page (bit 63,
`hci_spec::LMPFeature::kExtendedFeatures`). -/
def kExtendedFeaturesBit : Nat := 63

/-- Modelled from the spec: the cached attributes of one peer held by the
peer record store (`PeerCache`/`Peer`, not in this tree). -/
structure PeerRecord where
  name : Option (List Nat)
  version : Option VersionInfo
  features : Features
deriving DecidableEq, Repr

/-- A freshly created peer record: fully unknown state, as handed out by the
store's `get_or_create`/`NewPeer` for a never-seen peer. -/
def freshPeerRecord : PeerRecord :=
  { name := none
    version := none
    features := { page0 := none, page1 := none, page2 := none, last_page_number := 0 } }

/-- The four procedure kinds of an interrogation. -/
inductive ProcKind where
  | nameQuery
  | versionQuery
  | featuresQuery
  | extendedFeaturesQuery (page : Nat)
deriving DecidableEq, Repr

/-- The commands sent over the transport command channel. -/
inductive Command where
  | remoteNameRequest
  | readRemoteVersionInfo
  | readRemoteSupportedFeatures
  | readRemoteExtendedFeatures (page : Nat)
deriving DecidableEq, Repr

/-- The command a procedure sends when spawned. -/
def commandOf : ProcKind → Command
  | .nameQuery => .remoteNameRequest
  | .versionQuery => .readRemoteVersionInfo
  | .featuresQuery => .readRemoteSupportedFeatures
  | .extendedFeaturesQuery page => .readRemoteExtendedFeatures page

/-- Minimum valid parameter size of the remote-name-request-complete event:
status (1) + peer address (6) + fixed-size remote name field (248). -/
def kRemoteNameRequestCompleteMinParamSize : Nat := 255

/-- Modelled from the spec: parsing of the remote-name-request-complete
event payload (bytes: status, 6-byte address, NUL-padded name). A payload
shorter than the minimum valid encoding is malformed; a non-success status
byte is a protocol error; otherwise the name bytes up to the first NUL are
extracted. -/
def parseRemoteNameRequestComplete (payload : List Nat) : Except Reason (List Nat) :=
  if payload.length < kRemoteNameRequestCompleteMinParamSize then
    .error .malformedPacket
  else
    match payload with
    | [] => .error .malformedPacket
    | st :: rest =>
        if st = 0 then .ok ((rest.drop 6).takeWhile (fun b => b ≠ 0))
        else .error (.hciStatus st)

/-- The result delivered to a procedure: its completion event's parsed-out
content, or a failure (transport rejection, protocol status error, or
timeout surfaced as a transport failure). -/
inductive ProcOutcome where
  | nameEvent (payload : List Nat)
  | versionEvent (v : VersionInfo)
  | featuresEvent (bits : Nat)
  | extEvent (maxPage : Nat) (bits : Nat)
  | failure (r : Reason)
deriving DecidableEq, Repr

/-- Modelled from the spec: resolution of one procedure (`bredr_interrogator.cc`
is not in this tree). Given the procedure's kind, its outcome and the current
peer record, produce the updated record, the procedure's status, and the list
of further procedures to spawn (the extended-features cascade: page 1 when the
base page's extended-features bit is set, page 2 when page 1 reports a last
page number of at least 2 — capped at page 2). A failure stores nothing and
spawns nothing; a malformed name event stores nothing. -/
def resolveProc : ProcKind → ProcOutcome → PeerRecord → PeerRecord × Status × List ProcKind
  | .nameQuery, .nameEvent payload, p =>
      match parseRemoteNameRequestComplete payload with
      | .ok bytes => ({ p with name := some bytes }, .ok, [])
      | .error r => (p, .error r, [])
  | .versionQuery, .versionEvent v, p =>
      ({ p with version := some v }, .ok, [])
  | .featuresQuery, .featuresEvent bits, p =>
      ({ p with features := p.features.setPage 0 bits }, .ok,
        if bits.testBit kExtendedFeaturesBit then [.extendedFeaturesQuery 1] else [])
  | .extendedFeaturesQuery pg, .extEvent maxPage bits, p =>
      ({ p with features := (p.features.setPage pg bits).updateLastPage maxPage }, .ok,
        if pg = 1 ∧ 2 ≤ maxPage then [.extendedFeaturesQuery 2] else [])
  | _, .failure r, p => (p, .error r, [])
  | _, _, p => (p, .error .malformedPacket, [])

/-- The status a resolution yields, independent of the peer record. -/
def procStatus : ProcKind → ProcOutcome → Status
  | .nameQuery, .nameEvent payload =>
      match parseRemoteNameRequestComplete payload with
      | .ok _ => .ok
      | .error r => .error r
  | .versionQuery, .versionEvent _ => .ok
  | .featuresQuery, .featuresEvent _ => .ok
  | .extendedFeaturesQuery _, .extEvent _ _ => .ok
  | _, .failure r => .error r
  | _, _ => .error .malformedPacket

/-- Modelled from the spec: the state of one interrogation session —
the peer record being populated, the procedures not yet resolved
(`outstanding_count` is `pending.length`), the first-error-wins aggregate
status, the list of completion-callback invocations so far, and the log of
commands sent. -/
structure SessState where
  peer : PeerRecord
  pending : List ProcKind
  agg : Status
  fired : List Status
  sent : List Command
deriving DecidableEq, Repr

/-- Modelled from the spec: procedure selection of `Start` against cached
peer state — NameQuery iff `name` unset, VersionQuery iff `version` unset,
FeaturesQuery iff the base feature page unset; when the base page is already
cached and its extended-features bit is set, go directly to the
extended-page cascade starting at page 1. -/
def initialProcedures (p : PeerRecord) : List ProcKind :=
  (if p.name.isNone then [ProcKind.nameQuery] else []) ++
  (if p.version.isNone then [ProcKind.versionQuery] else []) ++
  (if p.features.has_page 0 then
    (if p.features.has_bit 0 kExtendedFeaturesBit then [ProcKind.extendedFeaturesQuery 1] else [])
  else [ProcKind.featuresQuery])

/-- Modelled from the spec: `Start` — select procedures, send their commands
in selection order, set the aggregate status to ok; when no procedure is
needed, invoke the callback with ok immediately. -/
def startSession (p : PeerRecord) : SessState :=
  let procs := initialProcedures p
  { peer := p
    pending := procs
    agg := .ok
    fired := if procs.isEmpty then [Status.ok] else []
    sent := procs.map commandOf }

/-- Modelled from the spec: delivery of one procedure's resolution to the
session. A completion for a procedure that is not outstanding is ignored.
Otherwise the procedure is resolved: the record updated, newly spawned
procedures added to `pending` (the count is raised before their commands are
sent, so it cannot transiently reach zero), the aggregate folded
first-error-wins, and when `pending` empties the completion callback is
invoked with the aggregate status. -/
def stepSession (s : SessState) (k : ProcKind) (o : ProcOutcome) : SessState :=
  if k ∈ s.pending then
    let r := resolveProc k o s.peer
    let pending := s.pending.erase k ++ r.2.2
    let agg := statusFold s.agg r.2.1
    { peer := r.1
      pending := pending
      agg := agg
      fired := if pending.isEmpty then s.fired ++ [agg] else s.fired
      sent := s.sent ++ r.2.2.map commandOf }
  else s

/-- Run a session over a trace of procedure resolutions delivered in order
by the dispatch queue. -/
def runTrace : SessState → List (ProcKind × ProcOutcome) → SessState
  | s, [] => s
  | s, (k, o) :: rest => runTrace (stepSession s k o) rest

/-- One whole `Start` invocation: start from the cached peer state and
deliver the given resolutions. -/
def interrogate (p : PeerRecord) (t : List (ProcKind × ProcOutcome)) : SessState :=
  runTrace (startSession p) t

/-- Whether every resolution of the trace is consumed (its procedure is
outstanding when it arrives). -/
def consumesAll : SessState → List (ProcKind × ProcOutcome) → Bool
  | _, [] => true
  | s, (k, o) :: rest => decide (k ∈ s.pending) && consumesAll (stepSession s k o) rest

/-! ## Helper lemmas -/

/-- The single-shot discipline of the completion callback: it has fired
exactly once when no procedure is outstanding, and not at all otherwise. -/
def firedInv (s : SessState) : Prop :=
  (s.pending = [] → s.fired.length = 1) ∧ (s.pending ≠ [] → s.fired = [])

lemma firedInv_start (p : PeerRecord) : firedInv (startSession p) := by
  by_cases h : initialProcedures p = [] <;>
    simp [firedInv, startSession, h]

lemma firedInv_step (s : SessState) (k : ProcKind) (o : ProcOutcome) (h : firedInv s) :
    firedInv (stepSession s k o) := by
  by_cases hk : k ∈ s.pending
  · have hf : s.fired = [] := h.2 (List.ne_nil_of_mem hk)
    by_cases hP : s.pending.erase k ++ (resolveProc k o s.peer).2.2 = []
    · simp [firedInv, stepSession, hk, hP, hf]
    · simp [firedInv, stepSession, hk, hP, hf, List.isEmpty_iff]
  · simpa [stepSession, hk] using h

lemma firedInv_run (t : List (ProcKind × ProcOutcome)) :
    ∀ s : SessState, firedInv s → firedInv (runTrace s t) := by
  induction t with
  | nil => intro s h; exact h
  | cons x rest ih =>
      intro s h
      obtain ⟨k, o⟩ := x
      exact ih _ (firedInv_step s k o h)

lemma resolve_status (k : ProcKind) (o : ProcOutcome) (p : PeerRecord) :
    (resolveProc k o p).2.1 = procStatus k o := by
  cases k <;> cases o <;>
    simp [resolveProc, procStatus] <;>
    (cases parseRemoteNameRequestComplete ‹List Nat› <;> simp)

lemma statusIsOk_fold (a b : Status) :
    statusIsOk (statusFold a b) = (statusIsOk a && statusIsOk b) := by
  cases a <;> simp [statusFold, statusIsOk]

lemma spawned_only_extended (k : ProcKind) (o : ProcOutcome) (p : PeerRecord)
    (k' : ProcKind) (h : k' ∈ (resolveProc k o p).2.2) :
    k' = ProcKind.extendedFeaturesQuery 1 ∨ k' = ProcKind.extendedFeaturesQuery 2 := by
  cases k <;> cases o <;>
    simp only [resolveProc] at h <;>
    first
      | simp_all
      | (split at h <;> simp_all)

/-! ## Claim theorems -/

/-- C10: a freshly created peer record is fully unknown — name unset, version
unset, base feature page unpopulated, extended-features bit unreadable
(false), `last_page_number` zero — and the first `Start` on such a peer
selects all three base procedures: NameQuery, VersionQuery, FeaturesQuery. -/
theorem fresh_peer_fully_unknown_selects_all :
    freshPeerRecord.name = none ∧
    freshPeerRecord.version = none ∧
    freshPeerRecord.features.has_page 0 = false ∧
    freshPeerRecord.features.has_bit 0 kExtendedFeaturesBit = false ∧
    freshPeerRecord.features.last_page_number = 0 ∧
    initialProcedures freshPeerRecord
      = [ProcKind.nameQuery, ProcKind.versionQuery, ProcKind.featuresQuery] := by
  decide

/-- C2: per `Start` invocation the completion callback is invoked at most
once in every delivery trace, and exactly once whenever the outstanding
procedure count has reached zero (the session has quiesced). -/
theorem callback_fires_exactly_once (p : PeerRecord) (t : List (ProcKind × ProcOutcome)) :
    (interrogate p t).fired.length ≤ 1 ∧
      ((interrogate p t).pending = [] → (interrogate p t).fired.length = 1) := by
  have h := firedInv_run t (startSession p) (firedInv_start p)
  unfold interrogate
  by_cases hp : (runTrace (startSession p) t).pending = []
  · exact ⟨le_of_eq (h.1 hp), fun _ => h.1 hp⟩
  · refine ⟨?_, fun hc => absurd hc hp⟩
    rw [h.2 hp]
    simp

/-- Witness for C2 at a concrete quiescing trace. -/
theorem callback_fires_exactly_once_witness :
    (interrogate freshPeerRecord
        [(ProcKind.nameQuery, ProcOutcome.failure (Reason.hciStatus 31)),
         (ProcKind.versionQuery, ProcOutcome.versionEvent ⟨0, 0, 0⟩),
         (ProcKind.featuresQuery, ProcOutcome.featuresEvent 0)]).pending = [] ∧
      (interrogate freshPeerRecord
        [(ProcKind.nameQuery, ProcOutcome.failure (Reason.hciStatus 31)),
         (ProcKind.versionQuery, ProcOutcome.versionEvent ⟨0, 0, 0⟩),
         (ProcKind.featuresQuery, ProcOutcome.featuresEvent 0)]).fired.length = 1 :=
  ⟨by decide,
   (callback_fires_exactly_once freshPeerRecord
      [(ProcKind.nameQuery, ProcOutcome.failure (Reason.hciStatus 31)),
       (ProcKind.versionQuery, ProcOutcome.versionEvent ⟨0, 0, 0⟩),
       (ProcKind.featuresQuery, ProcOutcome.featuresEvent 0)]).2 (by decide)⟩

/-- C4: when the name query fails first while version and features queries
are in flight, the siblings still resolve and write their results into the
peer record (version stored, base page populated), the aggregate delivered to
the callback is the first-encountered error, and a later second error never
overrides the first. -/
theorem failure_preserves_siblings (r r2 : Reason) (v : VersionInfo) (bits : Nat)
    (hbit : bits.testBit kExtendedFeaturesBit = false) :
    ((interrogate freshPeerRecord
        [(ProcKind.nameQuery, ProcOutcome.failure r),
         (ProcKind.versionQuery, ProcOutcome.versionEvent v),
         (ProcKind.featuresQuery, ProcOutcome.featuresEvent bits)]).fired
        = [Status.error r]) ∧
    ((interrogate freshPeerRecord
        [(ProcKind.nameQuery, ProcOutcome.failure r),
         (ProcKind.versionQuery, ProcOutcome.versionEvent v),
         (ProcKind.featuresQuery, ProcOutcome.featuresEvent bits)]).peer.version = some v) ∧
    ((interrogate freshPeerRecord
        [(ProcKind.nameQuery, ProcOutcome.failure r),
         (ProcKind.versionQuery, ProcOutcome.versionEvent v),
         (ProcKind.featuresQuery, ProcOutcome.featuresEvent bits)]).peer.features.has_page 0
        = true) ∧
    ((interrogate freshPeerRecord
        [(ProcKind.nameQuery, ProcOutcome.failure r),
         (ProcKind.versionQuery, ProcOutcome.failure r2),
         (ProcKind.featuresQuery, ProcOutcome.featuresEvent bits)]).fired
        = [Status.error r]) := by
  refine ⟨?_, ?_, ?_, ?_⟩ <;>
    simp [interrogate, runTrace, stepSession, resolveProc, startSession, initialProcedures,
      freshPeerRecord, Features.has_page, Features.has_bit, Features.setPage, statusFold, hbit]

/-- Witness for C4 at concrete inputs. -/
theorem failure_preserves_siblings_witness :
    (0 : Nat).testBit kExtendedFeaturesBit = false ∧
    ((interrogate freshPeerRecord
        [(ProcKind.nameQuery, ProcOutcome.failure (Reason.hciStatus 31)),
         (ProcKind.versionQuery, ProcOutcome.versionEvent ⟨2, 3, 4⟩),
         (ProcKind.featuresQuery, ProcOutcome.featuresEvent 0)]).peer.version
        = some ⟨2, 3, 4⟩) :=
  ⟨by decide,
   (failure_preserves_siblings (Reason.hciStatus 31) (Reason.hciStatus 5) ⟨2, 3, 4⟩ 0
      (by decide)).2.1⟩

/-- C5: a name-request completion event shorter than the minimum valid
encoding resolves the NameQuery as a malformed-packet error, stores no
partial value (`name` stays unset), and the aggregate result delivered to
the callback is that error. -/
theorem malformed_name_event_resolves_error (payload : List Nat) (v : VersionInfo) (bits : Nat)
    (hshort : payload.length < kRemoteNameRequestCompleteMinParamSize)
    (hbit : bits.testBit kExtendedFeaturesBit = false) :
    procStatus ProcKind.nameQuery (ProcOutcome.nameEvent payload)
        = Status.error Reason.malformedPacket ∧
    ((interrogate freshPeerRecord
        [(ProcKind.nameQuery, ProcOutcome.nameEvent payload),
         (ProcKind.versionQuery, ProcOutcome.versionEvent v),
         (ProcKind.featuresQuery, ProcOutcome.featuresEvent bits)]).peer.name = none) ∧
    ((interrogate freshPeerRecord
        [(ProcKind.nameQuery, ProcOutcome.nameEvent payload),
         (ProcKind.versionQuery, ProcOutcome.versionEvent v),
         (ProcKind.featuresQuery, ProcOutcome.featuresEvent bits)]).fired
        = [Status.error Reason.malformedPacket]) := by
  refine ⟨?_, ?_, ?_⟩ <;>
    simp [interrogate, runTrace, stepSession, resolveProc, startSession, initialProcedures,
      freshPeerRecord, Features.has_page, Features.has_bit, Features.setPage, statusFold,
      procStatus, parseRemoteNameRequestComplete, hshort, hbit]

/-- Witness for C5 at the unit test's 8-byte malformed event payload
(status success, peer address 01:00:00:00:00:00, one name byte). -/
theorem malformed_name_event_resolves_error_witness :
    [0, 1, 0, 0, 0, 0, 0, 70].length < kRemoteNameRequestCompleteMinParamSize ∧
    ((interrogate freshPeerRecord
        [(ProcKind.nameQuery, ProcOutcome.nameEvent [0, 1, 0, 0, 0, 0, 0, 70]),
         (ProcKind.versionQuery, ProcOutcome.versionEvent ⟨0, 0, 0⟩),
         (ProcKind.featuresQuery, ProcOutcome.featuresEvent 0)]).peer.name = none) :=
  ⟨by decide,
   (malformed_name_event_resolves_error [0, 1, 0, 0, 0, 0, 0, 70] ⟨0, 0, 0⟩ 0
      (by decide) (by decide)).2.1⟩

/-- The delivery trace of a fully successful interrogation of a fresh peer:
a valid name-request-complete event (success status byte followed by at
least 254 bytes), a version result, a base feature page, and the two
extended-page results each reporting a last page number of 2. -/
def successTrace (rest : List Nat) (v : VersionInfo) (bits b1 b2 : Nat) :
    List (ProcKind × ProcOutcome) :=
  [(ProcKind.nameQuery, ProcOutcome.nameEvent (0 :: rest)),
   (ProcKind.versionQuery, ProcOutcome.versionEvent v),
   (ProcKind.featuresQuery, ProcOutcome.featuresEvent bits),
   (ProcKind.extendedFeaturesQuery 1, ProcOutcome.extEvent 2 b1),
   (ProcKind.extendedFeaturesQuery 2, ProcOutcome.extEvent 2 b2)]

/-- C1: starting on a peer with no cached data and letting every spawned
procedure succeed (base page with the extended-features bit set, extended
pages reporting a last page number of 2) invokes the completion callback
with ok and leaves the record with name set, version set, base page
populated, and `last_page_number = 2`. -/
theorem successful_interrogation_populates_all (rest : List Nat) (v : VersionInfo)
    (bits b1 b2 : Nat) (hlen : 254 ≤ rest.length)
    (hbit : bits.testBit kExtendedFeaturesBit = true) :
    ((interrogate freshPeerRecord (successTrace rest v bits b1 b2)).fired = [Status.ok]) ∧
    ((interrogate freshPeerRecord (successTrace rest v bits b1 b2)).peer.name.isSome
        = true) ∧
    ((interrogate freshPeerRecord (successTrace rest v bits b1 b2)).peer.version
        = some v) ∧
    ((interrogate freshPeerRecord (successTrace rest v bits b1 b2)).peer.features.has_page 0
        = true) ∧
    ((interrogate freshPeerRecord
        (successTrace rest v bits b1 b2)).peer.features.has_bit 0 kExtendedFeaturesBit
        = true) ∧
    ((interrogate freshPeerRecord
        (successTrace rest v bits b1 b2)).peer.features.last_page_number = 2) := by
  have hlen' : ¬ (rest.length + 1 < kRemoteNameRequestCompleteMinParamSize) := by
    simp only [kRemoteNameRequestCompleteMinParamSize]
    omega
  refine ⟨?_, ?_, ?_, ?_, ?_, ?_⟩ <;>
    simp [interrogate, successTrace, runTrace, stepSession, resolveProc, startSession,
      initialProcedures, freshPeerRecord, Features.has_page, Features.has_bit,
      Features.setPage, Features.updateLastPage, statusFold,
      parseRemoteNameRequestComplete, hlen', hbit]

set_option maxRecDepth 8000 in
/-- Witness for C1 at a concrete 255-byte name event and base page. -/
theorem successful_interrogation_populates_all_witness :
    254 ≤ (List.replicate 254 7).length ∧
    (2 ^ 63 : Nat).testBit kExtendedFeaturesBit = true ∧
    (interrogate freshPeerRecord
        (successTrace (List.replicate 254 7) ⟨1, 2, 3⟩ (2 ^ 63) 5 6)).peer.features.last_page_number
      = 2 :=
  ⟨by decide, by decide,
   (successful_interrogation_populates_all (List.replicate 254 7) ⟨1, 2, 3⟩ (2 ^ 63) 5 6
      (by decide) (by decide)).2.2.2.2.2⟩

/-- C3: on a peer whose base data is already cached from a prior successful
interrogation (name, version and base page set, extended-features bit set),
a second `Start` sends only the extended-features cascade commands — no
name-request, read-version-info or read-supported-features command — and
again resolves the callback with ok. -/
theorem reinterrogation_queries_only_missing (p : PeerRecord) (bits b1 b2 : Nat)
    (hn : p.name.isSome = true) (hv : p.version.isSome = true)
    (hp0 : p.features.page0 = some bits)
    (hbit : bits.testBit kExtendedFeaturesBit = true) :
    ((interrogate p
        [(ProcKind.extendedFeaturesQuery 1, ProcOutcome.extEvent 2 b1),
         (ProcKind.extendedFeaturesQuery 2, ProcOutcome.extEvent 2 b2)]).sent
        = [Command.readRemoteExtendedFeatures 1, Command.readRemoteExtendedFeatures 2]) ∧
    ((interrogate p
        [(ProcKind.extendedFeaturesQuery 1, ProcOutcome.extEvent 2 b1),
         (ProcKind.extendedFeaturesQuery 2, ProcOutcome.extEvent 2 b2)]).fired
        = [Status.ok]) := by
  rcases Option.isSome_iff_exists.mp hn with ⟨a, ha⟩
  rcases Option.isSome_iff_exists.mp hv with ⟨w, hw⟩
  refine ⟨?_, ?_⟩ <;>
    simp [interrogate, runTrace, stepSession, resolveProc, startSession, initialProcedures,
      Features.has_page, Features.has_bit, Features.setPage, Features.updateLastPage,
      statusFold, commandOf, ha, hw, hp0, hbit]

/-- Witness for C3 at a concrete fully-interrogated peer record. -/
theorem reinterrogation_queries_only_missing_witness :
    (({ name := some [70], version := some ⟨1, 2, 3⟩,
        features := { page0 := some (2 ^ 63), page1 := some 5, page2 := some 6,
                      last_page_number := 2 } } : PeerRecord).name.isSome = true) ∧
    ((interrogate
        ({ name := some [70], version := some ⟨1, 2, 3⟩,
           features := { page0 := some (2 ^ 63), page1 := some 5, page2 := some 6,
                         last_page_number := 2 } } : PeerRecord)
        [(ProcKind.extendedFeaturesQuery 1, ProcOutcome.extEvent 2 8),
         (ProcKind.extendedFeaturesQuery 2, ProcOutcome.extEvent 2 9)]).sent
      = [Command.readRemoteExtendedFeatures 1, Command.readRemoteExtendedFeatures 2]) :=
  ⟨by decide,
   (reinterrogation_queries_only_missing
      { name := some [70], version := some ⟨1, 2, 3⟩,
        features := { page0 := some (2 ^ 63), page1 := some 5, page2 := some 6,
                      last_page_number := 2 } }
      (2 ^ 63) 8 9 (by decide) (by decide) (by decide) (by decide)).1⟩

/-- A peer record whose name and version are cached but whose base feature
page is still missing, so a `Start` selects exactly FeaturesQuery. -/
def basePagePeer (v : VersionInfo) : PeerRecord :=
  { name := some [70], version := some v,
    features := { page0 := none, page1 := none, page2 := none, last_page_number := 0 } }

/-- C6: a successful FeaturesQuery whose base page has the extended-features
bit set spawns exactly one ExtendedFeaturesQuery for page 1 (and none when
the bit is clear); a page-1 result reporting a last page number of at least
2 spawns exactly one ExtendedFeaturesQuery for page 2; no query for any page
other than 1 or 2 is ever spawned; the count is raised before the spawned
command is sent, so the spawning step can neither empty `pending` nor fire
the callback; and after the cascade succeeds with both pages reporting last
page 2, `last_page_number` is 2 and the commands sent were exactly the
features command followed by the two extended-page commands. -/
theorem extended_features_cascade :
    (∀ p bits, bits.testBit kExtendedFeaturesBit = true →
      (resolveProc ProcKind.featuresQuery (ProcOutcome.featuresEvent bits) p).2.2
        = [ProcKind.extendedFeaturesQuery 1]) ∧
    (∀ p bits, bits.testBit kExtendedFeaturesBit = false →
      (resolveProc ProcKind.featuresQuery (ProcOutcome.featuresEvent bits) p).2.2 = []) ∧
    (∀ p mx bits, 2 ≤ mx →
      (resolveProc (ProcKind.extendedFeaturesQuery 1) (ProcOutcome.extEvent mx bits) p).2.2
        = [ProcKind.extendedFeaturesQuery 2]) ∧
    (∀ k o p pg, ProcKind.extendedFeaturesQuery pg ∈ (resolveProc k o p).2.2 →
      pg = 1 ∨ pg = 2) ∧
    (∀ s bits, ProcKind.featuresQuery ∈ s.pending →
      bits.testBit kExtendedFeaturesBit = true →
      (stepSession s ProcKind.featuresQuery (ProcOutcome.featuresEvent bits)).pending ≠ [] ∧
      (stepSession s ProcKind.featuresQuery (ProcOutcome.featuresEvent bits)).fired
        = s.fired) ∧
    (∀ v bits b1 b2, bits.testBit kExtendedFeaturesBit = true →
      ((interrogate (basePagePeer v)
          [(ProcKind.featuresQuery, ProcOutcome.featuresEvent bits),
           (ProcKind.extendedFeaturesQuery 1, ProcOutcome.extEvent 2 b1),
           (ProcKind.extendedFeaturesQuery 2, ProcOutcome.extEvent 2 b2)]).sent
          = [Command.readRemoteSupportedFeatures, Command.readRemoteExtendedFeatures 1,
             Command.readRemoteExtendedFeatures 2]) ∧
      ((interrogate (basePagePeer v)
          [(ProcKind.featuresQuery, ProcOutcome.featuresEvent bits),
           (ProcKind.extendedFeaturesQuery 1, ProcOutcome.extEvent 2 b1),
           (ProcKind.extendedFeaturesQuery 2, ProcOutcome.extEvent 2 b2)]).peer.features.last_page_number
          = 2) ∧
      ((interrogate (basePagePeer v)
          [(ProcKind.featuresQuery, ProcOutcome.featuresEvent bits),
           (ProcKind.extendedFeaturesQuery 1, ProcOutcome.extEvent 2 b1),
           (ProcKind.extendedFeaturesQuery 2, ProcOutcome.extEvent 2 b2)]).fired
          = [Status.ok])) := by
  refine ⟨?_, ?_, ?_, ?_, ?_, ?_⟩
  · intro p bits h
    simp [resolveProc, h]
  · intro p bits h
    simp [resolveProc, h]
  · intro p mx bits h
    simp [resolveProc, h]
  · intro k o p pg h
    rcases spawned_only_extended k o p _ h with h1 | h1 <;> simp_all
  · intro s bits hk hbit
    refine ⟨?_, ?_⟩ <;> simp [stepSession, hk, resolveProc, hbit]
  · intro v bits b1 b2 hbit
    refine ⟨?_, ?_, ?_⟩ <;>
      simp [interrogate, runTrace, stepSession, resolveProc, startSession, initialProcedures,
        basePagePeer, Features.has_page, Features.has_bit, Features.setPage,
        Features.updateLastPage, statusFold, commandOf, hbit]

/-- Witness for C6 at a concrete base page with bit 63 set. -/
theorem extended_features_cascade_witness :
    (2 ^ 63 : Nat).testBit kExtendedFeaturesBit = true ∧
    (resolveProc ProcKind.featuresQuery (ProcOutcome.featuresEvent (2 ^ 63)) freshPeerRecord).2.2
      = [ProcKind.extendedFeaturesQuery 1] ∧
    (interrogate (basePagePeer ⟨1, 2, 3⟩)
        [(ProcKind.featuresQuery, ProcOutcome.featuresEvent (2 ^ 63)),
         (ProcKind.extendedFeaturesQuery 1, ProcOutcome.extEvent 2 4),
         (ProcKind.extendedFeaturesQuery 2, ProcOutcome.extEvent 2 5)]).peer.features.last_page_number
      = 2 :=
  ⟨by decide,
   extended_features_cascade.1 freshPeerRecord (2 ^ 63) (by decide),
   (extended_features_cascade.2.2.2.2.2 ⟨1, 2, 3⟩ (2 ^ 63) 4 5 (by decide)).2.1⟩

lemma all_eq_of_perm {α : Type} (f : α → Bool) {t1 t2 : List α} (h : t1.Perm t2) :
    t1.all f = t2.all f := by
  induction h with
  | nil => rfl
  | cons x _ ih => simp [List.all_cons, ih]
  | swap x y l => simp [List.all_cons, ← Bool.and_assoc, Bool.and_comm]
  | trans _ _ ih1 ih2 => rw [ih1, ih2]

lemma agg_ok_run (t : List (ProcKind × ProcOutcome)) :
    ∀ s : SessState, consumesAll s t = true →
      statusIsOk (runTrace s t).agg
        = (statusIsOk s.agg && t.all fun x => statusIsOk (procStatus x.1 x.2)) := by
  induction t with
  | nil => intro s _; simp [runTrace]
  | cons x rest ih =>
      intro s h
      obtain ⟨k, o⟩ := x
      simp only [consumesAll, Bool.and_eq_true, decide_eq_true_eq] at h
      have hstep : (stepSession s k o).agg = statusFold s.agg (procStatus k o) := by
        simp [stepSession, h.1, resolve_status]
      have hrun : runTrace s ((k, o) :: rest) = runTrace (stepSession s k o) rest := rfl
      rw [hrun, ih _ h.2, hstep, statusIsOk_fold]
      simp [List.all_cons, Bool.and_assoc]

/-- C7 counterexample: the same three resolutions delivered in two permuted
orders — both traces fully consumed and quiescing — produce different final
aggregate results: the error reason reported by the callback is whichever
failure was encountered first, so the final aggregate result is not
independent of the order in which completions arrive. -/
theorem aggregate_result_order_dependent_cex :
    ([((ProcKind.nameQuery : ProcKind), ProcOutcome.failure (Reason.hciStatus 1)),
      (ProcKind.versionQuery, ProcOutcome.failure (Reason.hciStatus 2)),
      (ProcKind.featuresQuery, ProcOutcome.featuresEvent 0)].Perm
      [(ProcKind.versionQuery, ProcOutcome.failure (Reason.hciStatus 2)),
       (ProcKind.nameQuery, ProcOutcome.failure (Reason.hciStatus 1)),
       (ProcKind.featuresQuery, ProcOutcome.featuresEvent 0)]) ∧
    consumesAll (startSession freshPeerRecord)
      [(ProcKind.nameQuery, ProcOutcome.failure (Reason.hciStatus 1)),
       (ProcKind.versionQuery, ProcOutcome.failure (Reason.hciStatus 2)),
       (ProcKind.featuresQuery, ProcOutcome.featuresEvent 0)] = true ∧
    consumesAll (startSession freshPeerRecord)
      [(ProcKind.versionQuery, ProcOutcome.failure (Reason.hciStatus 2)),
       (ProcKind.nameQuery, ProcOutcome.failure (Reason.hciStatus 1)),
       (ProcKind.featuresQuery, ProcOutcome.featuresEvent 0)] = true ∧
    (interrogate freshPeerRecord
       [(ProcKind.nameQuery, ProcOutcome.failure (Reason.hciStatus 1)),
        (ProcKind.versionQuery, ProcOutcome.failure (Reason.hciStatus 2)),
        (ProcKind.featuresQuery, ProcOutcome.featuresEvent 0)]).fired
      = [Status.error (Reason.hciStatus 1)] ∧
    (interrogate freshPeerRecord
       [(ProcKind.versionQuery, ProcOutcome.failure (Reason.hciStatus 2)),
        (ProcKind.nameQuery, ProcOutcome.failure (Reason.hciStatus 1)),
        (ProcKind.featuresQuery, ProcOutcome.featuresEvent 0)]).fired
      = [Status.error (Reason.hciStatus 2)] :=
  ⟨List.Perm.swap _ _ _, by decide, by decide, by decide, by decide⟩

/-- C7 amended: command send order follows procedure-selection order — the
commands sent at `Start` are exactly those of the selected procedures in
selection order (name, version, features), and each later step only appends
extended-features commands as the cascade becomes known; and whether the
final aggregate result is ok is independent of the order in which
completions arrive (the specific error reason carried by an error result is
the first-encountered one and does depend on completion order). -/
theorem send_order_and_ok_order_independence :
    (∀ p, (startSession p).sent = (initialProcedures p).map commandOf) ∧
    (∀ s k o, ∃ ext, (stepSession s k o).sent = s.sent ++ ext ∧
        ∀ c ∈ ext, c = Command.readRemoteExtendedFeatures 1 ∨
          c = Command.readRemoteExtendedFeatures 2) ∧
    (∀ p t1 t2, t1.Perm t2 →
        consumesAll (startSession p) t1 = true → consumesAll (startSession p) t2 = true →
        statusIsOk (interrogate p t1).agg = statusIsOk (interrogate p t2).agg) := by
  refine ⟨fun p => rfl, ?_, ?_⟩
  · intro s k o
    by_cases hk : k ∈ s.pending
    · refine ⟨(resolveProc k o s.peer).2.2.map commandOf, by simp [stepSession, hk], ?_⟩
      intro c hc
      simp only [List.mem_map] at hc
      obtain ⟨k', hk', rfl⟩ := hc
      rcases spawned_only_extended k o s.peer k' hk' with h1 | h1 <;>
        rw [h1] <;> simp [commandOf]
    · exact ⟨[], by simp [stepSession, hk], by simp⟩
  · intro p t1 t2 hperm h1 h2
    unfold interrogate
    rw [agg_ok_run t1 _ h1, agg_ok_run t2 _ h2,
      all_eq_of_perm (fun x => statusIsOk (procStatus x.1 x.2)) hperm]

/-- Witness for the amended C7: a success trace and its rotation have equal
ok-ness of the aggregate result. -/
theorem send_order_and_ok_order_independence_witness :
    ([((ProcKind.nameQuery : ProcKind), ProcOutcome.failure (Reason.hciStatus 9)),
      (ProcKind.versionQuery, ProcOutcome.versionEvent ⟨1, 1, 1⟩),
      (ProcKind.featuresQuery, ProcOutcome.featuresEvent 0)].Perm
      [(ProcKind.versionQuery, ProcOutcome.versionEvent ⟨1, 1, 1⟩),
       (ProcKind.nameQuery, ProcOutcome.failure (Reason.hciStatus 9)),
       (ProcKind.featuresQuery, ProcOutcome.featuresEvent 0)]) ∧
    statusIsOk (interrogate freshPeerRecord
        [(ProcKind.nameQuery, ProcOutcome.failure (Reason.hciStatus 9)),
         (ProcKind.versionQuery, ProcOutcome.versionEvent ⟨1, 1, 1⟩),
         (ProcKind.featuresQuery, ProcOutcome.featuresEvent 0)]).agg
      = statusIsOk (interrogate freshPeerRecord
        [(ProcKind.versionQuery, ProcOutcome.versionEvent ⟨1, 1, 1⟩),
         (ProcKind.nameQuery, ProcOutcome.failure (Reason.hciStatus 9)),
         (ProcKind.featuresQuery, ProcOutcome.featuresEvent 0)]).agg :=
  ⟨List.Perm.swap _ _ _,
   send_order_and_ok_order_independence.2.2 freshPeerRecord
     [(ProcKind.nameQuery, ProcOutcome.failure (Reason.hciStatus 9)),
      (ProcKind.versionQuery, ProcOutcome.versionEvent ⟨1, 1, 1⟩),
      (ProcKind.featuresQuery, ProcOutcome.featuresEvent 0)]
     [(ProcKind.versionQuery, ProcOutcome.versionEvent ⟨1, 1, 1⟩),
      (ProcKind.nameQuery, ProcOutcome.failure (Reason.hciStatus 9)),
      (ProcKind.featuresQuery, ProcOutcome.featuresEvent 0)]
     (List.Perm.swap _ _ _) (by decide) (by decide)⟩

lemma has_page_setPage (f : Features) (m bits n : Nat)
    (h : f.has_page n = true) : (f.setPage m bits).has_page n = true := by
  rcases m with _ | _ | _ | m <;> rcases n with _ | _ | _ | n <;>
    simp_all [Features.setPage, Features.has_page]

lemma has_page_updateLastPage (f : Features) (m n : Nat) :
    (f.updateLastPage m).has_page n = f.has_page n := by
  unfold Features.updateLastPage
  split <;> rcases n with _ | _ | _ | n <;> simp [Features.has_page]

lemma resolve_name_mono (k : ProcKind) (o : ProcOutcome) (p : PeerRecord)
    (h : p.name.isSome = true) : (resolveProc k o p).1.name.isSome = true := by
  cases k <;> cases o <;>
    simp only [resolveProc] <;>
    first
      | simpa using h
      | (cases parseRemoteNameRequestComplete ‹List Nat› <;> simp [h])

lemma resolve_version_mono (k : ProcKind) (o : ProcOutcome) (p : PeerRecord)
    (h : p.version.isSome = true) : (resolveProc k o p).1.version.isSome = true := by
  cases k <;> cases o <;>
    simp only [resolveProc] <;>
    first
      | simpa using h
      | (cases parseRemoteNameRequestComplete ‹List Nat› <;> simp [h])

lemma resolve_page_mono (k : ProcKind) (o : ProcOutcome) (p : PeerRecord) (n : Nat)
    (h : p.features.has_page n = true) :
    (resolveProc k o p).1.features.has_page n = true := by
  cases k <;> cases o <;>
    simp only [resolveProc] <;>
    first
      | simpa using h
      | (cases parseRemoteNameRequestComplete ‹List Nat› <;> simp [h])
      | exact has_page_setPage _ _ _ _ h
      | (rw [has_page_updateLastPage]; exact has_page_setPage _ _ _ _ h)

lemma step_peer_mono (s : SessState) (k : ProcKind) (o : ProcOutcome) :
    (s.peer.name.isSome = true → (stepSession s k o).peer.name.isSome = true) ∧
    (s.peer.version.isSome = true → (stepSession s k o).peer.version.isSome = true) ∧
    (∀ n, s.peer.features.has_page n = true →
      (stepSession s k o).peer.features.has_page n = true) := by
  by_cases hk : k ∈ s.pending
  · exact ⟨fun h => by simpa [stepSession, hk] using resolve_name_mono k o s.peer h,
      fun h => by simpa [stepSession, hk] using resolve_version_mono k o s.peer h,
      fun n h => by simpa [stepSession, hk] using resolve_page_mono k o s.peer n h⟩
  · simp [stepSession, hk]

lemma run_peer_mono (t : List (ProcKind × ProcOutcome)) :
    ∀ s : SessState,
      (s.peer.name.isSome = true → (runTrace s t).peer.name.isSome = true) ∧
      (s.peer.version.isSome = true → (runTrace s t).peer.version.isSome = true) ∧
      (∀ n, s.peer.features.has_page n = true →
        (runTrace s t).peer.features.has_page n = true) := by
  induction t with
  | nil => intro s; exact ⟨id, id, fun _ => id⟩
  | cons x rest ih =>
      intro s
      obtain ⟨k, o⟩ := x
      have hs := step_peer_mono s k o
      have hr := ih (stepSession s k o)
      exact ⟨fun h => hr.1 (hs.1 h), fun h => hr.2.1 (hs.2.1 h),
        fun n h => hr.2.2 n (hs.2.2 n h)⟩

/-- C8: across any sequence of resolutions, a populated field is never
cleared — a set name, version, or feature page stays set; a failed procedure
leaves the whole record unchanged (the previously stored value survives);
and a field can only be written by a query of its own kind (a non-name query
never touches `name`, a non-version query never touches `version`). -/
theorem fields_never_cleared :
    (∀ (s : SessState) (t : List (ProcKind × ProcOutcome)),
      (s.peer.name.isSome = true → (runTrace s t).peer.name.isSome = true) ∧
      (s.peer.version.isSome = true → (runTrace s t).peer.version.isSome = true) ∧
      (∀ n, s.peer.features.has_page n = true →
        (runTrace s t).peer.features.has_page n = true)) ∧
    (∀ k r p, resolveProc k (ProcOutcome.failure r) p = (p, Status.error r, [])) ∧
    (∀ k o p, k ≠ ProcKind.nameQuery → (resolveProc k o p).1.name = p.name) ∧
    (∀ k o p, k ≠ ProcKind.versionQuery → (resolveProc k o p).1.version = p.version) := by
  refine ⟨fun s t => run_peer_mono t s, ?_, ?_, ?_⟩
  · intro k r p
    cases k <;> rfl
  · intro k o p h
    cases k <;> cases o <;>
      first
        | exact absurd rfl h
        | rfl
  · intro k o p h
    cases k <;> cases o <;>
      first
        | exact absurd rfl h
        | rfl
        | (simp only [resolveProc]; cases parseRemoteNameRequestComplete ‹List Nat› <;> simp)

/-- A session over a partially cached peer record, with one outstanding
features query, used to witness field monotonicity. -/
def cachedSessState : SessState :=
  { peer := { name := some [1]
              version := some ⟨1, 1, 1⟩
              features := { page0 := some 0, page1 := none, page2 := none,
                            last_page_number := 0 } }
    pending := [ProcKind.featuresQuery]
    agg := Status.ok
    fired := []
    sent := [] }

/-- Witness for C8: a populated record survives a trace containing a failed
features query, and a version query leaves `name` untouched. -/
theorem fields_never_cleared_witness :
    cachedSessState.peer.name.isSome = true ∧
    ((runTrace cachedSessState
        [(ProcKind.featuresQuery, ProcOutcome.failure (Reason.hciStatus 3))]).peer.name.isSome
      = true) ∧
    ((resolveProc ProcKind.versionQuery (ProcOutcome.versionEvent ⟨2, 2, 2⟩)
        freshPeerRecord).1.name = freshPeerRecord.name) :=
  ⟨by decide,
   (fields_never_cleared.1 cachedSessState
      [(ProcKind.featuresQuery, ProcOutcome.failure (Reason.hciStatus 3))]).1 (by decide),
   fields_never_cleared.2.2.1 ProcKind.versionQuery (ProcOutcome.versionEvent ⟨2, 2, 2⟩)
     freshPeerRecord (by decide)⟩

end BrEdrInterrogation
